import Mathlib

/-!
# Dashboard.jsx: data preparation for the four charts

A shallow embedding of the projection functions of `src/Dashboard.jsx`
(`prepareLineData`, `prepareBarData`, `preparePieData`, the scatter slice) and of the
scale domains computed by the renderers, together with the JavaScript semantics they
rely on: truthiness, `||`, `+`, property lookup through `Object.prototype`, and the
own-key order of ordinary objects read back by `Object.entries`.
-/

namespace Dashboard

/-! ## JavaScript values -/

/-- The JavaScript values that occur in the program: `undefined`, `NaN`, numbers
(the integral ones, which is what timestamps in milliseconds, ports, severities and
counts are), strings, the built-in functions found on `Object.prototype` (by name)
and the object `Object.prototype` itself. -/
inductive JSVal where
  | undefined
  | nan
  | num (n : Int)
  | str (s : String)
  | native (name : String)
  | objectPrototype
  deriving DecidableEq, Repr

/-- ToBoolean. -/
def JSVal.truthy : JSVal → Bool
  | .undefined => false
  | .nan => false
  | .num n => n != 0
  | .str s => s != ""
  | .native _ => true
  | .objectPrototype => true

/-- ToString; a built-in function prints as its native-code source text and
`Object.prototype` as `[object Object]`. -/
def JSVal.toStr : JSVal → String
  | .undefined => "undefined"
  | .nan => "NaN"
  | .num n => toString n
  | .str s => s
  | .native name => "function " ++ name ++ "() \x7b [native code] \x7d"
  | .objectPrototype => "[object Object]"

/-- The operator `a || b`. -/
def jsOr (a b : JSVal) : JSVal := if a.truthy then a else b

/-- The operator `a + b`: string concatenation as soon as one operand is a string
after ToPrimitive (functions and objects convert to strings), numeric addition
otherwise. -/
def jsAdd : JSVal → JSVal → JSVal
  | .num a, .num b => .num (a + b)
  | .num _, .undefined => .nan
  | .num _, .nan => .nan
  | .undefined, .num _ => .nan
  | .undefined, .undefined => .nan
  | .undefined, .nan => .nan
  | .nan, .num _ => .nan
  | .nan, .undefined => .nan
  | .nan, .nan => .nan
  | a, b => .str (a.toStr ++ b.toStr)

/-! ## Ordinary objects used as dictionaries -/

/-- The own enumerable data properties of an object created by the literal `{}`, in
order of creation. Its prototype is `Object.prototype`. -/
abbrev JSObject := List (String × JSVal)

/-- Own property lookup. -/
def getOwn : JSObject → String → Option JSVal
  | [], _ => none
  | (k', v') :: rest, k => if k' = k then some v' else getOwn rest k

/-- Create or overwrite an own data property; a new property is created last. -/
def setOwn : JSObject → String → JSVal → JSObject
  | [], k, v => [(k, v)]
  | (k', v') :: rest, k, v =>
    if k' = k then (k', v) :: rest else (k', v') :: setOwn rest k v

/-- What `Object.prototype` answers for a property name: its built-in methods, the
`__proto__` accessor (which returns the prototype of the receiver, `Object.prototype`
itself for an object literal), and `undefined` for any other name. -/
def objectPrototypeGet (k : String) : JSVal :=
  if k = "__proto__" then .objectPrototype
  else if k = "constructor" then .native "Object"
  else if k = "hasOwnProperty" ∨ k = "isPrototypeOf" ∨ k = "propertyIsEnumerable"
      ∨ k = "toString" ∨ k = "toLocaleString" ∨ k = "valueOf"
      ∨ k = "__defineGetter__" ∨ k = "__defineSetter__"
      ∨ k = "__lookupGetter__" ∨ k = "__lookupSetter__" then .native k
  else .undefined

/-- The expression `o[k]`: the own property if there is one, else the prototype's. -/
def jsGet (o : JSObject) (k : String) : JSVal :=
  match getOwn o k with
  | some v => v
  | none => objectPrototypeGet k

/-- The assignment `o[k] = v` for a primitive `v`: the inherited `__proto__` setter
ignores a value that is neither an object nor `null`, every other name gets an own
property (the inherited methods are writable). -/
def jsSet (o : JSObject) (k : String) (v : JSVal) : JSObject :=
  if k = "__proto__" then o else setOwn o k v

/-- Value of a string of decimal digits, `none` if another character occurs. -/
def parseDigits : List Char → Nat → Option Nat
  | [], acc => some acc
  | c :: cs, acc =>
    if 48 ≤ c.toNat ∧ c.toNat ≤ 57 then parseDigits cs (acc * 10 + (c.toNat - 48)) else none

/-- A property name is an array index when it is the canonical decimal string of an
integer between 0 and 2^32 - 2; the result is that integer. -/
def arrayIndex? (s : String) : Option Nat :=
  match parseDigits s.data 0 with
  | some n => if n ≤ 4294967294 ∧ Nat.toDigits 10 n = s.data then some n else none
  | none => none

/-- Whether a property name is an array index. -/
def isArrayIndex (s : String) : Bool := (arrayIndex? s).isSome

/-- Numeric value of an array-index name (0 for any other name). -/
def indexValue (s : String) : Nat := (arrayIndex? s).getD 0

/-- Order of two properties by the numeric value of their names. -/
def indexLe (p q : String × JSVal) : Prop := indexValue p.1 ≤ indexValue q.1

instance : DecidableRel indexLe := fun p q =>
  inferInstanceAs (Decidable (indexValue p.1 ≤ indexValue q.1))

/-- The function `Object.entries(o)`: own properties whose names are array indices
first, in ascending numeric order, then the others in order of creation. -/
def objectEntries (o : JSObject) : List (String × JSVal) :=
  (o.filter (fun p => isArrayIndex p.1)).insertionSort indexLe
    ++ o.filter (fun p => !isArrayIndex p.1)

/-! ## Records and projections -/

/-- The `alert` object of a record; a missing field reads as `undefined`. -/
structure Alert where
  severity : JSVal
  category : JSVal
  deriving DecidableEq, Repr

/-- One element of `data.json`. `alert = none` stands for an absent alert
(`null` or `undefined`, both falsy); an alert object is always truthy. -/
structure Record where
  timestamp : JSVal
  src_port : JSVal
  dest_port : JSVal
  alert : Option Alert
  deriving DecidableEq, Repr

/-- A `Date` object, by its time value in milliseconds; `none` is an invalid date. -/
structure JSDate where
  time : Option Int
  deriving DecidableEq, Repr

/-- TimeClip: a time value beyond 8.64e15 ms in magnitude is invalid. -/
def timeClip (t : Int) : Option Int :=
  if -8640000000000000 ≤ t ∧ t ≤ 8640000000000000 then some t else none

/-- The constructor call `new Date(v)`. A number is taken as a time value, a string
goes through `Date.parse`, which is a parameter here. -/
def newDate (dateParse : String → Option Int) : JSVal → JSDate
  | .num n => ⟨timeClip n⟩
  | .undefined => ⟨none⟩
  | .nan => ⟨none⟩
  | v => ⟨(dateParse v.toStr).bind timeClip⟩

/-- A point of the line chart. -/
structure LinePoint where
  date : JSDate
  severity : JSVal
  deriving DecidableEq, Repr

/-- A point of the bar chart. -/
structure BarPoint where
  port : JSVal
  severity : JSVal
  deriving DecidableEq, Repr

/-- A slice of the pie chart. -/
structure PieSlice where
  category : String
  count : JSVal
  deriving DecidableEq, Repr

/-- The expression `d.alert ? d.alert.severity : 0`. -/
def severityOf (d : Record) : JSVal :=
  match d.alert with
  | some a => a.severity
  | none => .num 0

/-- The expression `d.alert ? d.alert.category : ''`. -/
def categoryOf (d : Record) : JSVal :=
  match d.alert with
  | some a => a.category
  | none => .str ""

/-- The function `prepareLineData`. -/
def prepareLineData (dateParse : String → Option Int) (data : List Record) : List LinePoint :=
  data.map (fun d => { date := newDate dateParse d.timestamp, severity := severityOf d })

/-- The function `prepareBarData`. -/
def prepareBarData (data : List Record) : List BarPoint :=
  data.map (fun d => { port := d.dest_port, severity := severityOf d })

/-- Body of the `forEach` callback of `preparePieData`:
`categories[category] = (categories[category] || 0) + 1`, the category being
converted to a property key. -/
def countCategory (categories : JSObject) (d : Record) : JSObject :=
  let category := (categoryOf d).toStr
  jsSet categories category (jsAdd (jsOr (jsGet categories category) (.num 0)) (.num 1))

/-- The object `categories` of `preparePieData` once `forEach` has visited `data`,
starting from the literal `{}`. -/
def countCategories (data : List Record) : JSObject :=
  data.foldl countCategory []

/-- The function `preparePieData`. -/
def preparePieData (data : List Record) : List PieSlice :=
  (objectEntries (countCategories data)).map
    (fun p => { category := p.1, count := p.2 })

/-- The property keys under which `preparePieData` counts the records, in record
order. -/
def categoryKeys (data : List Record) : List String :=
  data.map (fun d => (categoryOf d).toStr)

/-- The order in which `Object.entries` lists two distinct property names, given the
order `keys` in which the names were first assigned. -/
def entryBefore (keys : List String) (a b : String) : Prop :=
  (isArrayIndex a = true ∧ isArrayIndex b = false) ∨
  (isArrayIndex a = true ∧ isArrayIndex b = true ∧ indexValue a < indexValue b) ∨
  (isArrayIndex a = false ∧ isArrayIndex b = false ∧ keys.indexOf a < keys.indexOf b)

/-- The sum of the `count` fields of the slices, added up with `+` from 0. -/
def countTotal (slices : List PieSlice) : JSVal :=
  slices.foldl (fun acc s => jsAdd acc s.count) (.num 0)

/-- The method call `xs.slice(start, stop)` for `0 ≤ start` and `0 ≤ stop`. -/
def slice {α : Type} (xs : List α) (start stop : Nat) : List α :=
  (xs.take stop).drop start

/-- The scatter projection of the effect: `data.slice(0, 100)`. -/
def scatterPlotData (data : List Record) : List Record := slice data 0 100

/-! ## Renderers: bound data and scale domains -/

/-- The order `a <= b` on dates, by time value; false when either date is invalid. -/
def JSDate.le (a b : JSDate) : Prop :=
  match a.time, b.time with
  | some x, some y => x ≤ y
  | _, _ => False

instance : DecidableRel JSDate.le := fun a b => by
  unfold JSDate.le
  cases a.time <;> cases b.time <;> infer_instance

/-- The points of the single path of `drawLineChart`: the array bound by
`.datum(data)`, which the line generator visits in array order. -/
def drawLineChartDatum (data : List LinePoint) : List LinePoint := data

/-- The line pipeline of the effect: `drawLineChart(prepareLineData(data), ...)`. -/
def dashboardLinePath (dateParse : String → Option Int) (data : List Record) :
    List LinePoint :=
  drawLineChartDatum (prepareLineData dateParse data)

/-- Modelled from the spec: `d3.max` (d3 library, not part of the sources) over the
accessed values; values that are not numbers are skipped, and the max of an empty
collection is the absent value `undefined`. -/
def d3max (values : List JSVal) : JSVal :=
  values.foldl
    (fun m v =>
      match m, v with
      | .undefined, .num x => .num x
      | .num y, .num x => if y < x then .num x else .num y
      | _, _ => m)
    .undefined

/-- Modelled from the spec: `d3.extent` (d3 library, not part of the sources) over
dates; invalid dates are skipped, and both ends of the extent of an empty collection
are the absent value `undefined` (here `none`). -/
def d3extent (values : List JSDate) : Option JSDate × Option JSDate :=
  values.foldl
    (fun e v =>
      match v.time, e with
      | none, _ => e
      | some t, (some lo, some hi) =>
        (if t < lo.time.getD t then some v else some lo,
         if hi.time.getD t < t then some v else some hi)
      | some _, _ => (some v, some v))
    (none, none)

/-- Domain of the time scale of `drawLineChart`: `d3.extent(data, d => d.date)`. -/
def lineXDomain (data : List LinePoint) : Option JSDate × Option JSDate :=
  d3extent (data.map (fun d => d.date))

/-- Domain of the y scale of `drawLineChart`: `[0, d3.max(data, d => d.severity)]`. -/
def lineYDomain (data : List LinePoint) : JSVal × JSVal :=
  (.num 0, d3max (data.map (fun d => d.severity)))

/-- Domain of the y scale of `drawBarChart`: `[0, d3.max(data, d => d.severity)]`. -/
def barYDomain (data : List BarPoint) : JSVal × JSVal :=
  (.num 0, d3max (data.map (fun d => d.severity)))

/-- Domain of the x scale of `drawScatterPlot`: `[0, d3.max(data, d => d.src_port)]`. -/
def scatterXDomain (data : List Record) : JSVal × JSVal :=
  (.num 0, d3max (data.map (fun d => d.src_port)))

/-- Domain of the y scale of `drawScatterPlot`: `[0, d3.max(data, d => d.dest_port)]`. -/
def scatterYDomain (data : List Record) : JSVal × JSVal :=
  (.num 0, d3max (data.map (fun d => d.dest_port)))

/-- A value is a defined number: neither `undefined` nor `NaN` nor a non-number. -/
def JSVal.isDefinedNumber : JSVal → Bool
  | .num _ => true
  | _ => false

/-- Both ends of a numeric domain are defined numbers. -/
def domainDefined (d : JSVal × JSVal) : Bool :=
  d.1.isDefinedNumber && d.2.isDefinedNumber

/-- Both ends of a time domain are valid dates. -/
def timeDomainDefined (d : Option JSDate × Option JSDate) : Bool :=
  (d.1.bind (fun x => x.time)).isSome && (d.2.bind (fun x => x.time)).isSome

/-! ## Sample inputs -/

/-- A `Date.parse` that rejects every string, for inputs with numeric timestamps. -/
def noDateParse : String → Option Int := fun _ => none

/-- A record without alert. -/
def plainRecord (timestamp : Int) : Record :=
  { timestamp := .num timestamp, src_port := .undefined, dest_port := .undefined,
    alert := none }

/-- A record whose alert has the given severity and category. -/
def alertRecordOf (timestamp severity : Int) (category : String) : Record :=
  { timestamp := .num timestamp, src_port := .undefined, dest_port := .undefined,
    alert := some { severity := .num severity, category := .str category } }

/-- The two-record scenario of the specification:
`[{timestamp:1,alert:null},{timestamp:2,alert:{severity:3,category:"x"}}]`. -/
def scenarioRecords : List Record := [plainRecord 1, alertRecordOf 2 3 "x"]

/-- A record with ports and an alert of severity 1 in the given category. -/
def alertRecord (timestamp : Int) (category : String) : Record :=
  { timestamp := .num timestamp, src_port := .num 1024, dest_port := .num 80,
    alert := some { severity := .num 1, category := .str category } }

/-- Four records of categories `b`, `10`, `a`, `2`, in that order. -/
def orderRecords : List Record :=
  [alertRecord 1 "b", alertRecord 2 "10", alertRecord 3 "a", alertRecord 4 "2"]

/-- A record whose alert object has neither a severity nor a category. -/
def emptyAlertRecord : Record :=
  { timestamp := .num 1, src_port := .num 1024, dest_port := .num 80,
    alert := some { severity := .undefined, category := .undefined } }

/-- The records numbered `0 .. n-1`, the `k`-th with ports `(k, 1000 + k)`. -/
def numberedRecords (n : Nat) : List Record :=
  (List.range n).map (fun k =>
    { timestamp := .num k, src_port := .num k, dest_port := .num (1000 + k), alert := none })

/-! # Theorems -/

/-! ## Line and bar projections -/

/-- C1: `prepareLineData` returns one point per record, in record order: the output
has the length of the input, and the point at index `i` carries the date built from
the timestamp of the `i`-th record and that record's `alert.severity` when the alert
is present, 0 otherwise. -/
theorem prepareLineData_pointwise (dateParse : String → Option Int) (rs : List Record) :
    (prepareLineData dateParse rs).length = rs.length ∧
    ∀ (i : Nat) (r : Record), rs[i]? = some r →
      (prepareLineData dateParse rs)[i]? =
        some { date := newDate dateParse r.timestamp,
               severity := match r.alert with
                 | some a => a.severity
                 | none => .num 0 } := by
  refine ⟨by simp [prepareLineData], ?_⟩
  intro i r h
  simp only [prepareLineData, List.getElem?_map, h, Option.map_some', severityOf]

/-- Witness for C1 on the two-record scenario: times 1 and 2, severities 0 and 3. -/
theorem prepareLineData_pointwise_witness :
    scenarioRecords[1]? = some (alertRecordOf 2 3 "x") ∧
    (prepareLineData noDateParse scenarioRecords)[1]? = some ⟨⟨some 2⟩, .num 3⟩ ∧
    prepareLineData noDateParse scenarioRecords
      = [⟨⟨some 1⟩, .num 0⟩, ⟨⟨some 2⟩, .num 3⟩] :=
  ⟨by decide,
   ((prepareLineData_pointwise noDateParse scenarioRecords).2 1
      (alertRecordOf 2 3 "x") (by decide)).trans (by decide),
   by decide⟩

/-- C6: `prepareBarData` returns one point per record, in record order: the point at
index `i` carries the `dest_port` of the `i`-th record and its `alert.severity` when
the alert is present, 0 otherwise; its severities are those of `prepareLineData`. -/
theorem prepareBarData_pointwise (dateParse : String → Option Int) (rs : List Record) :
    (prepareBarData rs).length = rs.length ∧
    (∀ (i : Nat) (r : Record), rs[i]? = some r →
      (prepareBarData rs)[i]? =
        some { port := r.dest_port,
               severity := match r.alert with
                 | some a => a.severity
                 | none => .num 0 }) ∧
    (prepareBarData rs).map (fun p => p.severity)
      = (prepareLineData dateParse rs).map (fun p => p.severity) := by
  refine ⟨by simp [prepareBarData], ?_, by simp [prepareBarData, prepareLineData]⟩
  intro i r h
  simp only [prepareBarData, List.getElem?_map, h, Option.map_some', severityOf]

/-- Witness for C6 on the two-record scenario. -/
theorem prepareBarData_pointwise_witness :
    scenarioRecords[1]? = some (alertRecordOf 2 3 "x") ∧
    (prepareBarData scenarioRecords)[1]? = some ⟨.undefined, .num 3⟩ :=
  ⟨by decide,
   ((prepareBarData_pointwise noDateParse scenarioRecords).2.1 1
      (alertRecordOf 2 3 "x") (by decide)).trans (by decide)⟩

/-! ## Scatter projection -/

/-- C5: the scatter projection `data.slice(0, 100)` has `min 100 |rs|` elements, its
`i`-th element is the `i`-th record for every `i` below that length, it is a prefix
of `rs`, and it is all of `rs` when `rs` has fewer than 100 records. -/
theorem scatterPlotData_first_hundred (rs : List Record) :
    (scatterPlotData rs).length = min 100 rs.length ∧
    (∀ i : Nat, i < min 100 rs.length → (scatterPlotData rs)[i]? = rs[i]?) ∧
    scatterPlotData rs <+: rs ∧
    (rs.length < 100 → scatterPlotData rs = rs) := by
  refine ⟨by simp [scatterPlotData, slice], ?_, ?_, ?_⟩
  · intro i hi
    have h100 : i < 100 := lt_of_lt_of_le hi (min_le_left _ _)
    simp [scatterPlotData, slice, List.getElem?_take, h100]
  · exact ⟨rs.drop 100, by simp [scatterPlotData, slice]⟩
  · intro h
    simpa [scatterPlotData, slice] using List.take_of_length_le (le_of_lt h)

set_option maxRecDepth 100000 in
/-- Witness for C5: of 150 records the projection keeps exactly the first 100 port
pairs in order; of the two scenario records it keeps both. -/
theorem scatterPlotData_first_hundred_witness :
    (99 < min 100 (numberedRecords 150).length ∧
      (scatterPlotData (numberedRecords 150))[99]? = (numberedRecords 150)[99]?) ∧
    (scenarioRecords.length < 100 ∧ scatterPlotData scenarioRecords = scenarioRecords) ∧
    (scatterPlotData (numberedRecords 150)).map (fun r => (r.src_port, r.dest_port))
      = (List.range 100).map (fun k => (JSVal.num k, JSVal.num (1000 + k))) :=
  ⟨⟨by decide, (scatterPlotData_first_hundred (numberedRecords 150)).2.1 99 (by decide)⟩,
   ⟨by decide, (scatterPlotData_first_hundred scenarioRecords).2.2.2 (by decide)⟩,
   by decide⟩

/-! ## Own properties -/

theorem getOwn_setOwn_self (o : JSObject) (k : String) (v : JSVal) :
    getOwn (setOwn o k v) k = some v := by
  induction o with
  | nil => simp [setOwn, getOwn]
  | cons p o ih =>
    obtain ⟨k', v'⟩ := p
    by_cases h : k' = k
    · simp [setOwn, getOwn, h]
    · simp [setOwn, getOwn, h, ih]

theorem getOwn_setOwn_ne (o : JSObject) {k k' : String} (v : JSVal) (h : k' ≠ k) :
    getOwn (setOwn o k v) k' = getOwn o k' := by
  induction o with
  | nil => simp [setOwn, getOwn, h.symm]
  | cons p o ih =>
    obtain ⟨k₀, v₀⟩ := p
    by_cases h₀ : k₀ = k
    · subst h₀
      simp [setOwn, getOwn, h.symm]
    · by_cases h₁ : k₀ = k'
      · subst h₁
        simp [setOwn, getOwn, h₀]
      · simp [setOwn, getOwn, h₀, h₁, ih]

theorem keys_setOwn (o : JSObject) (k : String) (v : JSVal) :
    (setOwn o k v).map Prod.fst =
      if k ∈ o.map Prod.fst then o.map Prod.fst else o.map Prod.fst ++ [k] := by
  induction o with
  | nil => simp [setOwn]
  | cons p o ih =>
    obtain ⟨k', v'⟩ := p
    by_cases h : k' = k
    · simp [setOwn, h]
    · have h' : ¬ k = k' := fun e => h e.symm
      by_cases hm : k ∈ o.map Prod.fst
      · simp only [setOwn, h, if_false, List.map_cons, ih, hm, if_true, List.mem_cons, or_true]
      · simp only [setOwn, h, if_false, List.map_cons, ih, hm, List.mem_cons, h', or_self,
          List.cons_append]

theorem getOwn_eq_none_iff (o : JSObject) (k : String) :
    getOwn o k = none ↔ k ∉ o.map Prod.fst := by
  induction o with
  | nil => simp [getOwn]
  | cons p o ih =>
    obtain ⟨k', v'⟩ := p
    by_cases h : k' = k
    · simp [getOwn, h]
    · have h' : ¬ k = k' := fun e => h e.symm
      simp [getOwn, h, h', ih]

theorem mem_of_getOwn_eq_some {o : JSObject} {k : String} {v : JSVal}
    (h : getOwn o k = some v) : (k, v) ∈ o := by
  induction o with
  | nil => simp [getOwn] at h
  | cons p o ih =>
    obtain ⟨k', v'⟩ := p
    by_cases hk : k' = k
    · simp [getOwn, hk] at h
      simp [hk, h]
    · simp [getOwn, hk] at h
      exact List.mem_cons_of_mem _ (ih h)

theorem getOwn_eq_some_of_mem {o : JSObject} (hnd : (o.map Prod.fst).Nodup) {k : String}
    {v : JSVal} (h : (k, v) ∈ o) : getOwn o k = some v := by
  induction o with
  | nil => simp at h
  | cons p o ih =>
    obtain ⟨k', v'⟩ := p
    simp only [List.map_cons, List.nodup_cons] at hnd
    rcases List.mem_cons.1 h with h | h
    · cases h
      simp [getOwn]
    · have hk : k' ≠ k := by
        rintro rfl
        exact hnd.1 (List.mem_map_of_mem Prod.fst h)
      simp [getOwn, hk, ih hnd.2 h]

/-! ## The counting pass -/

theorem countCategories_concat (rs : List Record) (d : Record) :
    countCategories (rs ++ [d]) = countCategory (countCategories rs) d := by
  simp [countCategories]

theorem categoryKeys_concat (rs : List Record) (d : Record) :
    categoryKeys (rs ++ [d]) = categoryKeys rs ++ [(categoryOf d).toStr] := by
  simp [categoryKeys]

theorem keys_countCategory (o : JSObject) (d : Record) :
    (countCategory o d).map Prod.fst =
      if (categoryOf d).toStr = "__proto__" ∨ (categoryOf d).toStr ∈ o.map Prod.fst
      then o.map Prod.fst else o.map Prod.fst ++ [(categoryOf d).toStr] := by
  by_cases hp : (categoryOf d).toStr = "__proto__"
  · simp [countCategory, jsSet, hp]
  · by_cases hm : (categoryOf d).toStr ∈ o.map Prod.fst
    · simp only [countCategory, jsSet, hp, if_false, keys_setOwn, hm, if_true, or_true]
    · simp only [countCategory, jsSet, hp, if_false, keys_setOwn, hm, or_self]

/-- A category has an own property after the pass exactly when it occurs among the
keys and is not `__proto__`. -/
theorem mem_keys_countCategories (rs : List Record) (k : String) :
    k ∈ (countCategories rs).map Prod.fst ↔ k ∈ categoryKeys rs ∧ k ≠ "__proto__" := by
  induction rs using List.reverseRecOn generalizing k with
  | nil => simp [countCategories, categoryKeys]
  | append_singleton rs d ih =>
    rw [countCategories_concat, categoryKeys_concat, keys_countCategory]
    by_cases hp : (categoryOf d).toStr = "__proto__"
    · simp only [hp, true_or, if_true, ih, List.mem_append, List.mem_singleton]
      constructor
      · rintro ⟨h, hk⟩
        exact ⟨Or.inl h, hk⟩
      · rintro ⟨h | h, hk⟩
        · exact ⟨h, hk⟩
        · exact absurd h hk
    · by_cases hm : (categoryOf d).toStr ∈ (countCategories rs).map Prod.fst
      · simp only [hm, or_true, if_true, ih, List.mem_append, List.mem_singleton]
        constructor
        · rintro ⟨h, hk⟩
          exact ⟨Or.inl h, hk⟩
        · rintro ⟨h | h, hk⟩
          · exact ⟨h, hk⟩
          · subst h
            exact (ih _).1 hm
      · simp only [hp, hm, or_self, if_false, List.mem_append, List.mem_singleton, ih]
        constructor
        · rintro (⟨h, hk⟩ | h)
          · exact ⟨Or.inl h, hk⟩
          · subst h
            exact ⟨Or.inr rfl, hp⟩
        · rintro ⟨h | h, hk⟩
          · exact Or.inl ⟨h, hk⟩
          · exact Or.inr h

/-- No category gets two own properties. -/
theorem nodup_keys_countCategories (rs : List Record) :
    ((countCategories rs).map Prod.fst).Nodup := by
  induction rs using List.reverseRecOn with
  | nil => simp [countCategories]
  | append_singleton rs d ih =>
    rw [countCategories_concat, keys_countCategory]
    split
    · exact ih
    · rename_i h
      rw [not_or] at h
      exact List.Nodup.append ih (List.nodup_singleton _) (by simpa using h.2)

/-- Own properties are created in the order in which their categories are first
seen. -/
theorem pairwise_keys_countCategories (rs : List Record) :
    ((countCategories rs).map Prod.fst).Pairwise
      (fun a b => (categoryKeys rs).indexOf a < (categoryKeys rs).indexOf b) := by
  induction rs using List.reverseRecOn with
  | nil => simp [countCategories]
  | append_singleton rs d ih =>
    have hstable : ∀ a ∈ (countCategories rs).map Prod.fst,
        (categoryKeys (rs ++ [d])).indexOf a = (categoryKeys rs).indexOf a := by
      intro a ha
      rw [categoryKeys_concat]
      exact List.indexOf_append_of_mem ((mem_keys_countCategories rs a).1 ha).1
    have hold : ((countCategories rs).map Prod.fst).Pairwise
        (fun a b => (categoryKeys (rs ++ [d])).indexOf a
          < (categoryKeys (rs ++ [d])).indexOf b) := by
      refine ih.imp_of_mem ?_
      intro a b ha hb hab
      rw [hstable a ha, hstable b hb]
      exact hab
    rw [countCategories_concat, keys_countCategory]
    split
    · exact hold
    · rename_i h
      rw [not_or] at h
      rw [List.pairwise_append]
      refine ⟨hold, List.pairwise_singleton _ _, ?_⟩
      intro a ha b hb
      rw [List.mem_singleton] at hb
      subst hb
      have hnew : (categoryOf d).toStr ∉ categoryKeys rs := fun hin =>
        h.2 ((mem_keys_countCategories rs _).2 ⟨hin, h.1⟩)
      rw [hstable a ha, categoryKeys_concat, List.indexOf_append_of_not_mem hnew]
      have := List.indexOf_lt_length.2 ((mem_keys_countCategories rs a).1 ha).1
      omega

/-- For a name that `Object.prototype` does not define, the own property after the
pass holds the number of records counted under that name. -/
theorem getOwn_countCategories (rs : List Record) (k : String)
    (hk : objectPrototypeGet k = .undefined) :
    getOwn (countCategories rs) k =
      if k ∈ categoryKeys rs then some (.num ((categoryKeys rs).count k : Nat)) else none := by
  have hproto : k ≠ "__proto__" := by
    rintro rfl
    simp [objectPrototypeGet] at hk
  induction rs using List.reverseRecOn with
  | nil => simp [countCategories, categoryKeys, getOwn]
  | append_singleton rs d ih =>
    rw [countCategories_concat, categoryKeys_concat]
    by_cases hc : (categoryOf d).toStr = k
    · have hset : countCategory (countCategories rs) d =
          setOwn (countCategories rs) k
            (jsAdd (jsOr (jsGet (countCategories rs) k) (.num 0)) (.num 1)) := by
        simp [countCategory, jsSet, hc, hproto]
      rw [hset, getOwn_setOwn_self]
      by_cases hm : k ∈ categoryKeys rs
      · have hpos : 0 < (categoryKeys rs).count k := List.count_pos_iff.2 hm
        have hne : ((categoryKeys rs).count k : Int) ≠ 0 := by omega
        simp [jsGet, ih, hm, jsOr, JSVal.truthy, hne, jsAdd, hc]
      · simp [jsGet, ih, hm, hk, jsOr, JSVal.truthy, jsAdd, hc, List.count_eq_zero_of_not_mem hm]
    · have hget : getOwn (countCategory (countCategories rs) d) k
          = getOwn (countCategories rs) k := by
        by_cases hp : (categoryOf d).toStr = "__proto__"
        · simp [countCategory, jsSet, hp]
        · simp only [countCategory, jsSet, hp, if_false]
          exact getOwn_setOwn_ne _ _ (fun e => hc e.symm)
      have hck : ¬ k = (categoryOf d).toStr := fun e => hc e.symm
      simp [hget, ih, hc, hck, List.count_singleton']

/-! ## Reading the object back -/

theorem objectEntries_perm (o : JSObject) : (objectEntries o).Perm o := by
  unfold objectEntries
  refine ((List.perm_insertionSort indexLe _).append_right _).trans ?_
  exact List.filter_append_perm (fun p : String × JSVal => isArrayIndex p.1) o

theorem mem_preparePieData (rs : List Record) (k : String) (v : JSVal) :
    (⟨k, v⟩ : PieSlice) ∈ preparePieData rs ↔ (k, v) ∈ countCategories rs := by
  unfold preparePieData
  rw [List.mem_map]
  constructor
  · rintro ⟨⟨k', v'⟩, hmem, heq⟩
    simp only [PieSlice.mk.injEq] at heq
    obtain ⟨rfl, rfl⟩ := heq
    exact (objectEntries_perm _).mem_iff.1 hmem
  · intro h
    exact ⟨(k, v), (objectEntries_perm _).mem_iff.2 h, rfl⟩

theorem categories_preparePieData_perm (rs : List Record) :
    ((preparePieData rs).map (fun s => s.category)).Perm
      ((countCategories rs).map Prod.fst) := by
  unfold preparePieData
  rw [List.map_map]
  exact (objectEntries_perm _).map _

/-- The slice of a category that `Object.prototype` does not define: it exists as
soon as a record has that category, it is the only slice of that category, and its
count is the number of records of that category. -/
theorem slice_of_plain_category (rs : List Record) (k : String)
    (hk : objectPrototypeGet k = .undefined) (hmem : k ∈ categoryKeys rs) :
    (⟨k, .num ((categoryKeys rs).count k : Nat)⟩ : PieSlice) ∈ preparePieData rs ∧
    ∀ s ∈ preparePieData rs, s.category = k →
      s = ⟨k, .num ((categoryKeys rs).count k : Nat)⟩ := by
  have hget := getOwn_countCategories rs k hk
  rw [if_pos hmem] at hget
  refine ⟨(mem_preparePieData rs _ _).2 (mem_of_getOwn_eq_some hget), ?_⟩
  rintro ⟨k', v⟩ hs hcat
  simp only at hcat
  subst hcat
  have h1 := getOwn_eq_some_of_mem (nodup_keys_countCategories rs)
    ((mem_preparePieData rs _ _).1 hs)
  rw [hget] at h1
  cases h1
  rfl

theorem count_categoryKeys (rs : List Record) (k : String) :
    (categoryKeys rs).count k = rs.countP (fun d => (categoryOf d).toStr = k) := by
  unfold categoryKeys
  rw [List.count_eq_countP, List.countP_map]
  congr 1

/-! ## Order of the entries -/

theorem arrayIndex?_eq_some {s : String} {n : Nat} (h : arrayIndex? s = some n) :
    s = ⟨Nat.toDigits 10 n⟩ := by
  unfold arrayIndex? at h
  split at h
  · rename_i m _
    split at h
    · rename_i hc
      cases h
      rw [hc.2]
    · cases h
  · cases h

/-- Two array-index names with the same numeric value are the same name. -/
theorem eq_of_indexValue_eq {a b : String} (ha : isArrayIndex a = true)
    (hb : isArrayIndex b = true) (h : indexValue a = indexValue b) : a = b := by
  unfold isArrayIndex at ha hb
  obtain ⟨n, hn⟩ := Option.isSome_iff_exists.1 ha
  obtain ⟨m, hm⟩ := Option.isSome_iff_exists.1 hb
  simp only [indexValue, hn, hm, Option.getD_some] at h
  subst h
  rw [arrayIndex?_eq_some hn, arrayIndex?_eq_some hm]

/-- In a list whose elements are pairwise related by an asymmetric relation, related
elements occur in that order. -/
theorem indexOf_lt_of_pairwise {R : String → String → Prop} {l : List String}
    (hp : l.Pairwise R) (hasymm : ∀ a b, R a b → ¬ R b a) {a b : String}
    (ha : a ∈ l) (hb : b ∈ l) (hab : R a b) : l.indexOf a < l.indexOf b := by
  have hia := List.indexOf_lt_length.2 ha
  have hib := List.indexOf_lt_length.2 hb
  by_contra hlt
  rcases Nat.lt_or_eq_of_le (Nat.le_of_not_lt hlt) with h | h
  · have := List.pairwise_iff_getElem.1 hp _ _ hib hia h
    rw [List.getElem_indexOf hib, List.getElem_indexOf hia] at this
    exact hasymm a b hab this
  · have hba : b = a := (List.indexOf_inj hb ha).1 h
    subst hba
    exact hasymm b b hab hab

theorem entryBefore_asymm (keys : List String) (a b : String)
    (h : entryBefore keys a b) : ¬ entryBefore keys b a := by
  unfold entryBefore at *
  rcases h with ⟨h1, h2⟩ | ⟨h1, h2, h3⟩ | ⟨h1, h2, h3⟩ <;>
    rintro (⟨g1, g2⟩ | ⟨g1, g2, g3⟩ | ⟨g1, g2, g3⟩) <;> simp_all <;> omega

theorem categories_preparePieData (rs : List Record) :
    (preparePieData rs).map (fun s => s.category) =
      ((List.insertionSort indexLe
          ((countCategories rs).filter (fun p => isArrayIndex p.1))).map Prod.fst)
        ++ ((countCategories rs).map Prod.fst).filter (fun k => !isArrayIndex k) := by
  unfold preparePieData objectEntries
  rw [List.map_map, List.map_append, List.filter_map]
  rfl

/-- The categories of the slices are pairwise in `Object.entries` order. -/
theorem pairwise_categories_preparePieData (rs : List Record) :
    ((preparePieData rs).map (fun s => s.category)).Pairwise
      (entryBefore (categoryKeys rs)) := by
  rw [categories_preparePieData, List.pairwise_append]
  have hperm := List.perm_insertionSort indexLe
    ((countCategories rs).filter (fun p => isArrayIndex p.1))
  have hidx : ∀ a ∈ (List.insertionSort indexLe
      ((countCategories rs).filter (fun p => isArrayIndex p.1))).map Prod.fst,
      isArrayIndex a = true := by
    intro a ha
    obtain ⟨p, hp, rfl⟩ := List.mem_map.1 ha
    have := (List.mem_filter.1 (hperm.mem_iff.1 hp)).2
    simpa using this
  refine ⟨?_, ?_, ?_⟩
  · haveI : IsTotal (String × JSVal) indexLe := ⟨fun _ _ => Nat.le_total _ _⟩
    haveI : IsTrans (String × JSVal) indexLe := ⟨fun _ _ _ h₁ h₂ => Nat.le_trans h₁ h₂⟩
    have hsorted := List.sorted_insertionSort indexLe
      ((countCategories rs).filter (fun p => isArrayIndex p.1))
    have hle : ((List.insertionSort indexLe
        ((countCategories rs).filter (fun p => isArrayIndex p.1))).map Prod.fst).Pairwise
        (fun a b => indexValue a ≤ indexValue b) := by
      rw [List.pairwise_map]
      exact hsorted
    have hnd : ((List.insertionSort indexLe
        ((countCategories rs).filter (fun p => isArrayIndex p.1))).map Prod.fst).Nodup := by
      refine ((hperm.map Prod.fst).nodup_iff).2 ?_
      exact (nodup_keys_countCategories rs).sublist
        ((List.filter_sublist _).map Prod.fst)
    refine (hle.and hnd).imp_of_mem ?_
    intro a b ha hb hab
    refine Or.inr (Or.inl ⟨hidx a ha, hidx b hb, ?_⟩)
    rcases Nat.lt_or_eq_of_le hab.1 with h | h
    · exact h
    · exact absurd (eq_of_indexValue_eq (hidx a ha) (hidx b hb) h) hab.2
  · refine ((pairwise_keys_countCategories rs).filter _).imp_of_mem ?_
    intro a b ha hb hab
    have ha' := (List.mem_filter.1 ha).2
    have hb' := (List.mem_filter.1 hb).2
    simp only [Bool.not_eq_true', decide_eq_true_eq] at ha' hb'
    exact Or.inr (Or.inr ⟨by simpa using ha', by simpa using hb', hab⟩)
  · intro a ha b hb
    have hb' := (List.mem_filter.1 hb).2
    exact Or.inl ⟨hidx a ha, by simpa using hb'⟩

/-! ## Pie projection -/

/-- C2: `preparePieData` on a record of category `constructor` followed by one of
category `__proto__`: the first slice's count is the text of the inherited function
followed by `1` instead of the number 1, and the second category has no slice. -/
theorem preparePieData_inherited_names :
    preparePieData [alertRecord 1 "constructor", alertRecord 2 "__proto__"]
      = [⟨"constructor", .str "function Object() \x7b [native code] \x7d1"⟩] := by
  decide

/-- C3: `preparePieData` on a record of category `__proto__` followed by one of
category `x`: the only slice is that of `x`, so the counts add up to 1 for 2
records. -/
theorem countTotal_proto_record :
    preparePieData [alertRecord 1 "__proto__", alertRecord 2 "x"] = [⟨"x", .num 1⟩] ∧
    countTotal (preparePieData [alertRecord 1 "__proto__", alertRecord 2 "x"]) = .num 1 ∧
    [alertRecord 1 "__proto__", alertRecord 2 "x"].length = 2 := by
  decide

/-- C4, as stated, fails: in `[b, 1]` category `b` is seen first, yet the slice of
`1` comes first. -/
theorem first_seen_order_counterexample :
    categoryKeys [alertRecord 1 "b", alertRecord 2 "1"] = ["b", "1"] ∧
    (preparePieData [alertRecord 1 "b", alertRecord 2 "1"]).map (fun s => s.category)
      = ["1", "b"] ∧
    ¬ (∀ a b : String,
        a ∈ categoryKeys [alertRecord 1 "b", alertRecord 2 "1"] →
        b ∈ categoryKeys [alertRecord 1 "b", alertRecord 2 "1"] →
        (categoryKeys [alertRecord 1 "b", alertRecord 2 "1"]).indexOf a
          < (categoryKeys [alertRecord 1 "b", alertRecord 2 "1"]).indexOf b →
        ((preparePieData [alertRecord 1 "b", alertRecord 2 "1"]).map
            (fun s => s.category)).indexOf a
          < ((preparePieData [alertRecord 1 "b", alertRecord 2 "1"]).map
            (fun s => s.category)).indexOf b) :=
  ⟨by decide, by decide,
   fun h => absurd (h "b" "1" (by decide) (by decide) (by decide)) (by decide)⟩

/-- C4, amended: among the categories that get a slice (those other than
`__proto__`), a slice whose category is an array index precedes every slice whose
category is not, the slices whose categories are array indices are in ascending
numeric order, and the other slices are in first-seen order. -/
theorem preparePieData_entry_order (rs : List Record) (a b : String)
    (ha : a ∈ categoryKeys rs) (hb : b ∈ categoryKeys rs)
    (hpa : a ≠ "__proto__") (hpb : b ≠ "__proto__") :
    (isArrayIndex a = false → isArrayIndex b = false →
      (categoryKeys rs).indexOf a < (categoryKeys rs).indexOf b →
      ((preparePieData rs).map (fun s => s.category)).indexOf a
        < ((preparePieData rs).map (fun s => s.category)).indexOf b) ∧
    (isArrayIndex a = true → isArrayIndex b = false →
      ((preparePieData rs).map (fun s => s.category)).indexOf a
        < ((preparePieData rs).map (fun s => s.category)).indexOf b) ∧
    (isArrayIndex a = true → isArrayIndex b = true → indexValue a < indexValue b →
      ((preparePieData rs).map (fun s => s.category)).indexOf a
        < ((preparePieData rs).map (fun s => s.category)).indexOf b) := by
  have hmem : ∀ k, k ∈ categoryKeys rs → k ≠ "__proto__" →
      k ∈ (preparePieData rs).map (fun s => s.category) := fun k hk hp =>
    (categories_preparePieData_perm rs).mem_iff.2 ((mem_keys_countCategories rs k).2 ⟨hk, hp⟩)
  have key := fun h => indexOf_lt_of_pairwise (pairwise_categories_preparePieData rs)
    (entryBefore_asymm (categoryKeys rs)) (hmem a ha hpa) (hmem b hb hpb) h
  exact ⟨fun h1 h2 h3 => key (Or.inr (Or.inr ⟨h1, h2, h3⟩)),
    fun h1 h2 => key (Or.inl ⟨h1, h2⟩),
    fun h1 h2 h3 => key (Or.inr (Or.inl ⟨h1, h2, h3⟩))⟩

/-- Witness for amended C4 on the categories `b, 10, a, 2`, listed as `2, 10, b, a`. -/
theorem preparePieData_entry_order_witness :
    ((preparePieData orderRecords).map (fun s => s.category) = ["2", "10", "b", "a"]) ∧
    (((preparePieData orderRecords).map (fun s => s.category)).indexOf "b"
      < ((preparePieData orderRecords).map (fun s => s.category)).indexOf "a") ∧
    (((preparePieData orderRecords).map (fun s => s.category)).indexOf "10"
      < ((preparePieData orderRecords).map (fun s => s.category)).indexOf "b") ∧
    (((preparePieData orderRecords).map (fun s => s.category)).indexOf "2"
      < ((preparePieData orderRecords).map (fun s => s.category)).indexOf "10") :=
  ⟨by decide,
   (preparePieData_entry_order orderRecords "b" "a" (by decide) (by decide) (by decide)
      (by decide)).1 (by decide) (by decide) (by decide),
   (preparePieData_entry_order orderRecords "10" "b" (by decide) (by decide) (by decide)
      (by decide)).2.1 (by decide) (by decide),
   (preparePieData_entry_order orderRecords "2" "10" (by decide) (by decide) (by decide)
      (by decide)).2.2 (by decide) (by decide) (by decide)⟩

/-! ## Categories that `Object.prototype` does not define -/

theorem foldl_jsAdd_num (l : List PieSlice) (f : PieSlice → Nat)
    (h : ∀ s ∈ l, s.count = .num (f s : Nat)) (z : Nat) :
    l.foldl (fun acc s => jsAdd acc s.count) (.num (z : Nat))
      = .num ((z + (l.map f).sum : Nat)) := by
  induction l generalizing z with
  | nil => simp
  | cons s l ih =>
    have hs := h s (List.mem_cons_self _ _)
    have hl : ∀ t ∈ l, t.count = .num (f t : Nat) := fun t ht =>
      h t (List.mem_cons_of_mem _ ht)
    have hstep : jsAdd (.num (z : Nat)) s.count = .num ((z + f s : Nat)) := by
      rw [hs]
      simp [jsAdd]
    rw [List.foldl_cons, hstep, ih hl]
    simp [Nat.add_assoc]

/-- When no category of `rs` is a name defined by `Object.prototype`, the slices have
pairwise distinct categories, every category of `rs` has a slice, each count is the
number of records of its category, and the counts add up to the number of records. -/
theorem preparePieData_plain_categories (rs : List Record)
    (hplain : ∀ k ∈ categoryKeys rs, objectPrototypeGet k = .undefined) :
    ((preparePieData rs).map (fun s => s.category)).Nodup ∧
    (∀ k ∈ categoryKeys rs, k ∈ (preparePieData rs).map (fun s => s.category)) ∧
    (∀ s ∈ preparePieData rs,
      s.count = .num (rs.countP (fun d => (categoryOf d).toStr = s.category) : Nat)) ∧
    countTotal (preparePieData rs) = .num (rs.length : Nat) := by
  have hproto : ∀ k ∈ categoryKeys rs, k ≠ "__proto__" := by
    intro k hk hp
    have := hplain k hk
    rw [hp] at this
    exact absurd this (by decide)
  have hnd : ((preparePieData rs).map (fun s => s.category)).Nodup :=
    ((categories_preparePieData_perm rs).nodup_iff).2 (nodup_keys_countCategories rs)
  have hmem : ∀ k, k ∈ (preparePieData rs).map (fun s => s.category) ↔ k ∈ categoryKeys rs := by
    intro k
    rw [(categories_preparePieData_perm rs).mem_iff, mem_keys_countCategories]
    exact ⟨fun h => h.1, fun h => ⟨h, hproto k h⟩⟩
  have hcount : ∀ s ∈ preparePieData rs,
      s.count = .num ((categoryKeys rs).count s.category : Nat) := by
    intro s hs
    have hk : s.category ∈ categoryKeys rs :=
      (hmem _).1 (List.mem_map_of_mem (fun s => s.category) hs)
    rw [(slice_of_plain_category rs s.category (hplain _ hk) hk).2 s hs rfl]
  refine ⟨hnd, fun k hk => (hmem k).2 hk, ?_, ?_⟩
  · intro s hs
    rw [hcount s hs, count_categoryKeys]
  · have hfold := foldl_jsAdd_num (preparePieData rs)
      (fun s => (categoryKeys rs).count s.category) hcount 0
    have hperm : ((preparePieData rs).map (fun s => s.category)).Perm
        (categoryKeys rs).dedup :=
      (List.perm_ext_iff_of_nodup hnd (List.nodup_dedup _)).2
        (fun k => by rw [hmem, List.mem_dedup])
    have hsum : ((preparePieData rs).map
        (fun s => (categoryKeys rs).count s.category)).sum = rs.length := by
      have h1 : (preparePieData rs).map (fun s => (categoryKeys rs).count s.category)
          = ((preparePieData rs).map (fun s => s.category)).map
              (fun k => (categoryKeys rs).count k) := by
        rw [List.map_map]
        rfl
      rw [h1, (hperm.map _).sum_eq, List.sum_map_count_dedup_eq_length]
      simp [categoryKeys]
    unfold countTotal
    have h0 : (JSVal.num 0) = JSVal.num ((0 : Nat) : Int) := rfl
    rw [h0, hfold, hsum, Nat.zero_add]

/-- On the two-record scenario the slices are those of the empty string and of `x`,
one record each, and the counts add up to 2. -/
theorem preparePieData_scenario :
    (∀ k ∈ categoryKeys scenarioRecords, objectPrototypeGet k = .undefined) ∧
    preparePieData scenarioRecords = [⟨"", .num 1⟩, ⟨"x", .num 1⟩] ∧
    countTotal (preparePieData scenarioRecords) = .num 2 :=
  ⟨by decide, by decide,
   (preparePieData_plain_categories scenarioRecords (by decide)).2.2.2⟩

/-! ## Defaults for an absent alert -/

/-- C7: a record at index `i` whose alert is absent gets severity 0 in the line
point and in the bar point at index `i`, its category key is the empty string, and
`preparePieData` has exactly one slice for the empty string, whose count is the
number of records with that key (at least one, the record itself). -/
theorem absent_alert_defaults (dateParse : String → Option Int) (rs : List Record)
    (i : Nat) (r : Record) (hi : rs[i]? = some r) (ha : r.alert = none) :
    (prepareLineData dateParse rs)[i]? = some ⟨newDate dateParse r.timestamp, .num 0⟩ ∧
    (prepareBarData rs)[i]? = some ⟨r.dest_port, .num 0⟩ ∧
    (categoryOf r).toStr = "" ∧
    0 < rs.countP (fun d => (categoryOf d).toStr = "") ∧
    (⟨"", .num (rs.countP (fun d => (categoryOf d).toStr = "") : Nat)⟩ : PieSlice)
      ∈ preparePieData rs ∧
    ∀ s ∈ preparePieData rs, s.category = "" →
      s.count = .num (rs.countP (fun d => (categoryOf d).toStr = "") : Nat) := by
  have hkey : (categoryOf r).toStr = "" := by simp [categoryOf, ha, JSVal.toStr]
  have hr : r ∈ rs := List.getElem?_mem hi
  have hmem : "" ∈ categoryKeys rs := by
    rw [← hkey]
    exact List.mem_map_of_mem _ hr
  have hslice := slice_of_plain_category rs "" (by decide) hmem
  rw [count_categoryKeys] at hslice
  refine ⟨?_, ?_, hkey, ?_, hslice.1, ?_⟩
  · simp [prepareLineData, List.getElem?_map, hi, severityOf, ha]
  · simp [prepareBarData, List.getElem?_map, hi, severityOf, ha]
  · rw [← count_categoryKeys]
    exact List.count_pos_iff.2 hmem
  · intro s hs hcat
    rw [hslice.2 s hs hcat]

/-- Witness for C7 on the two-record scenario, whose first record has no alert. -/
theorem absent_alert_defaults_witness :
    (scenarioRecords[0]? = some (plainRecord 1) ∧ (plainRecord 1).alert = none) ∧
    (prepareLineData noDateParse scenarioRecords)[0]? = some ⟨⟨some 1⟩, .num 0⟩ ∧
    (⟨"", .num 1⟩ : PieSlice) ∈ preparePieData scenarioRecords :=
  ⟨⟨by decide, by decide⟩,
   ((absent_alert_defaults noDateParse scenarioRecords 0 (plainRecord 1) (by decide)
      (by decide)).1).trans (by decide),
   (absent_alert_defaults noDateParse scenarioRecords 0 (plainRecord 1) (by decide)
      (by decide)).2.2.2.2.1⟩

/-! ## Fields missing from a present alert -/

/-- C8, as stated, fails: for a record whose alert object has neither severity nor
category, the line and bar severities are `undefined`, not 0, and the record is
counted under `undefined`, not under the empty string. -/
theorem missing_alert_fields_counterexample :
    ((prepareLineData noDateParse [emptyAlertRecord]).map (fun p => p.severity)
        = [.undefined] ∧
      (prepareLineData noDateParse [emptyAlertRecord]).map (fun p => p.severity)
        ≠ [.num 0]) ∧
    ((prepareBarData [emptyAlertRecord]).map (fun p => p.severity) = [.undefined] ∧
      (prepareBarData [emptyAlertRecord]).map (fun p => p.severity) ≠ [.num 0]) ∧
    (preparePieData [emptyAlertRecord] = [⟨"undefined", .num 1⟩] ∧
      ¬ ∃ s ∈ preparePieData [emptyAlertRecord], s.category = "") := by
  decide

/-- C8, amended: the projections are total, and a present alert's fields are used as
they are. For a record at index `i` whose alert object is present, a missing or
undefined severity gives the severity `undefined` in the line point and in the bar
point at index `i`; a missing or undefined category gives the category key
`undefined`, for which `preparePieData` has one slice whose count is the number of
records with that key (at least one). -/
theorem present_alert_fields_as_is (dateParse : String → Option Int) (rs : List Record)
    (i : Nat) (r : Record) (a : Alert) (hi : rs[i]? = some r) (ha : r.alert = some a) :
    (prepareLineData dateParse rs)[i]? = some ⟨newDate dateParse r.timestamp, a.severity⟩ ∧
    (prepareBarData rs)[i]? = some ⟨r.dest_port, a.severity⟩ ∧
    (a.severity = .undefined →
      (prepareLineData dateParse rs)[i]? = some ⟨newDate dateParse r.timestamp, .undefined⟩ ∧
      (prepareBarData rs)[i]? = some ⟨r.dest_port, .undefined⟩) ∧
    (a.category = .undefined →
      (categoryOf r).toStr = "undefined" ∧
      0 < rs.countP (fun d => (categoryOf d).toStr = "undefined") ∧
      (⟨"undefined", .num (rs.countP (fun d => (categoryOf d).toStr = "undefined") : Nat)⟩
        : PieSlice) ∈ preparePieData rs ∧
      ∀ s ∈ preparePieData rs, s.category = "undefined" →
        s.count = .num (rs.countP (fun d => (categoryOf d).toStr = "undefined") : Nat)) := by
  have hline : (prepareLineData dateParse rs)[i]?
      = some ⟨newDate dateParse r.timestamp, a.severity⟩ := by
    simp [prepareLineData, List.getElem?_map, hi, severityOf, ha]
  have hbar : (prepareBarData rs)[i]? = some ⟨r.dest_port, a.severity⟩ := by
    simp [prepareBarData, List.getElem?_map, hi, severityOf, ha]
  refine ⟨hline, hbar, ?_, ?_⟩
  · intro hs
    rw [hline, hbar, hs]
    exact ⟨rfl, rfl⟩
  · intro hc
    have hkey : (categoryOf r).toStr = "undefined" := by
      simp [categoryOf, ha, hc, JSVal.toStr]
    have hr : r ∈ rs := List.getElem?_mem hi
    have hmem : "undefined" ∈ categoryKeys rs := by
      rw [← hkey]
      exact List.mem_map_of_mem _ hr
    have hslice := slice_of_plain_category rs "undefined" (by decide) hmem
    rw [count_categoryKeys] at hslice
    refine ⟨hkey, ?_, hslice.1, ?_⟩
    · rw [← count_categoryKeys]
      exact List.count_pos_iff.2 hmem
    · intro s hs hcat
      rw [hslice.2 s hs hcat]

/-- Witness for amended C8 on a record whose alert object is empty. -/
theorem present_alert_fields_as_is_witness :
    ([emptyAlertRecord][0]? = some emptyAlertRecord ∧
      emptyAlertRecord.alert = some ⟨.undefined, .undefined⟩) ∧
    (prepareLineData noDateParse [emptyAlertRecord])[0]? = some ⟨⟨some 1⟩, .undefined⟩ ∧
    (prepareBarData [emptyAlertRecord])[0]? = some ⟨.num 80, .undefined⟩ ∧
    (⟨"undefined", .num 1⟩ : PieSlice) ∈ preparePieData [emptyAlertRecord] :=
  ⟨⟨by decide, by decide⟩,
   (((present_alert_fields_as_is noDateParse [emptyAlertRecord] 0 emptyAlertRecord
      ⟨.undefined, .undefined⟩ (by decide) (by decide)).2.2.1 rfl).1).trans (by decide),
   (((present_alert_fields_as_is noDateParse [emptyAlertRecord] 0 emptyAlertRecord
      ⟨.undefined, .undefined⟩ (by decide) (by decide)).2.2.1 rfl).2).trans (by decide),
   ((present_alert_fields_as_is noDateParse [emptyAlertRecord] 0 emptyAlertRecord
      ⟨.undefined, .undefined⟩ (by decide) (by decide)).2.2.2 rfl).2.2.1⟩

/-! ## Order of the line path -/

/-- C9, as stated, fails: for records with timestamps 2 then 1 the path visits time
2 before time 1. -/
theorem line_path_order_counterexample :
    (dashboardLinePath noDateParse [plainRecord 2, plainRecord 1]).map (fun p => p.date)
      = [⟨some 2⟩, ⟨some 1⟩] ∧
    ¬ (dashboardLinePath noDateParse [plainRecord 2, plainRecord 1]).Pairwise
        (fun p q => p.date.le q.date) := by
  decide

/-- C9, amended: the path visits the points in record order, so its points are in
ascending order of time exactly when the dates of the records are. -/
theorem line_path_order_iff (dateParse : String → Option Int) (rs : List Record) :
    (dashboardLinePath dateParse rs).map (fun p => p.date)
      = rs.map (fun r => newDate dateParse r.timestamp) ∧
    ((dashboardLinePath dateParse rs).Pairwise (fun p q => p.date.le q.date) ↔
      rs.Pairwise (fun r s =>
        (newDate dateParse r.timestamp).le (newDate dateParse s.timestamp))) := by
  constructor
  · simp [dashboardLinePath, drawLineChartDatum, prepareLineData]
  · simp only [dashboardLinePath, drawLineChartDatum, prepareLineData, List.pairwise_map]

/-! ## Scale domains of an empty projection -/

/-- C10, as stated, fails: none of the five domains of an empty projection is a pair
of defined numbers. -/
theorem empty_domains_counterexample :
    ¬ (domainDefined (lineYDomain []) = true) ∧
    ¬ (domainDefined (barYDomain []) = true) ∧
    ¬ (domainDefined (scatterXDomain []) = true) ∧
    ¬ (domainDefined (scatterYDomain []) = true) ∧
    ¬ (timeDomainDefined (lineXDomain []) = true) := by
  decide

/-- C10, amended: for the empty projection the renderers apply no default: each
numeric domain is `[0, undefined]` and the time extent is `[undefined, undefined]`. -/
theorem empty_domains :
    lineYDomain [] = (.num 0, .undefined) ∧
    barYDomain [] = (.num 0, .undefined) ∧
    scatterXDomain [] = (.num 0, .undefined) ∧
    scatterYDomain [] = (.num 0, .undefined) ∧
    lineXDomain [] = (none, none) := by
  decide

end Dashboard
